import Mathlib

/-!
Verification of selected components of the fboss switch agent.

Embedded directly from the sources:
  - the `sfpString` helper and the read-register dispatch of `main` in
    the wedge QSFP utility (`wedge_qsfp_util.cpp`);
  - `SimPlatform::initPorts` / `SimPlatform::getPlatformPort`
    (`SimPlatform.cpp`).

The neighbor-resolution cache (Entry Store, Resolution State Machine,
protocol-adapter classification, timers, flush, onLinkDown) is declared in the
sources only through the `ArpCache` interface header; its implementation is not
part of the sample, so it is modelled from the specification and verified
against that model.
-/

namespace Fboss

/-! ## Embedding of sfpString from wedge_qsfp_util.cpp

The C++ source is

    StringPiece sfpString(const uint8_t* buf, size_t offset, size_t len) {
      const uint8_t* start = buf + offset;
      while (len > 0 && start[len - 1] == ' ') {
        --len;
      }
      return StringPiece(reinterpret_cast<const char*>(start), len);
    }

A byte buffer is a `List Nat` (bytes), and the `while` loop becomes the
recursion `sfpStringLen`, reading `start[len - 1] = buf[offset + len - 1]`.
-/

/-- Value of `len` after the trailing-space-stripping loop of `sfpString`:
decrement `len` while the byte `buf[offset + len - 1]` is a space (0x20). -/
def sfpStringLen (buf : List Nat) (offset : Nat) : Nat → Nat
  | 0 => 0
  | n + 1 => if buf.getD (offset + n) 0 = 0x20 then sfpStringLen buf offset n else n + 1

/-- The bytes returned by `sfpString buf offset len`: the range starting at
`offset` truncated to the post-loop length. -/
def sfpString (buf : List Nat) (offset len : Nat) : List Nat :=
  (buf.drop offset).take (sfpStringLen buf offset len)

/-- Number of trailing space bytes (0x20) of a byte list; used to state what
the stripping loop computes. -/
def numTrailingSpaces (l : List Nat) : Nat :=
  (l.reverse.takeWhile (fun b => b == 0x20)).length

/-! ## Embedding of SimPlatform port mapping from SimPlatform.cpp

`initPorts` populates `portMapping_` with a `SimPlatformPort` for every
`PortID i` with `0 <= i < numPorts_`; `getPlatformPort` looks the id up and
throws `FbossError` when it is absent.
-/

/-- A platform port as created by `SimPlatformPort(portID, this)`; only the
port id is relevant to the lookup contract. -/
structure SimPlatformPort where
  id : Nat
deriving DecidableEq, Repr

/-- The `portMapping_` map, as an association list in insertion order. -/
abbrev PortMapping := List (Nat × SimPlatformPort)

/-- Generic map lookup on the association list, mirroring
`portMapping_.find(id)`. -/
def lookupPort (id : Nat) : PortMapping → Option SimPlatformPort
  | [] => none
  | (i, p) :: rest => if i = id then some p else lookupPort id rest

/-- Embeds `SimPlatform::initPorts`: for `i` in `0 .. numPorts-1`, emplace
`(PortID(i), SimPlatformPort(PortID(i), this))`. -/
def initPorts (numPorts : Nat) : PortMapping :=
  (List.range numPorts).map (fun i => (i, ⟨i⟩))

/-- The parts of a `SimPlatform` relevant to `getPlatformPort`. -/
structure SimPlatform where
  numPorts : Nat
  portMapping : PortMapping
deriving Repr

/-- The `SimPlatform` constructor: stores `numPorts` and runs `initPorts`. -/
def mkSimPlatform (numPorts : Nat) : SimPlatform :=
  { numPorts := numPorts, portMapping := initPorts numPorts }

/-- Embeds `SimPlatform::getPlatformPort`: return the mapped port if present,
otherwise throw `FbossError` (modelled as `Except.error`). -/
def getPlatformPort (plat : SimPlatform) (id : Nat) : Except String SimPlatformPort :=
  match lookupPort id plat.portMapping with
  | some p => Except.ok p
  | none => Except.error "Cannot find SimPlatform PlatformPort"

/-! ## Embedding of the read-register dispatch in wedge_qsfp_util main

The guarded block of `main` is

    if (FLAGS_read_reg) {
      if (FLAGS_offset == -1) { ... retcode = EX_SOFTWARE; }
      else {
        if (FLAGS_length > 128) { ... retcode = EX_SOFTWARE; }
        else { doReadReg(bus.get(), portNum, FLAGS_offset, FLAGS_length); }
      }
    }

and `doReadReg` reads its 128-byte local buffer `buf` at the indices of the
loop `for (int i = 0; i < length; i++)`.
-/

/-- Exit code `EX_OK` from sysexits.h. -/
def EX_OK : Nat := 0

/-- Exit code `EX_SOFTWARE` from sysexits.h. -/
def EX_SOFTWARE : Nat := 70

/-- Outcome of the `FLAGS_read_reg` block of `main` for one port. -/
inductive ReadRegAction where
  | skipped
  | failMissingOffset
  | failLengthTooBig
  | read (offset length : Int)
deriving DecidableEq, Repr

/-- Embeds the `FLAGS_read_reg` block of `main`: dispatch on the flag values,
calling `doReadReg` only when an offset was given and the length is at
most 128. -/
def readRegDispatch (readRegFlag : Bool) (offset length : Int) : ReadRegAction :=
  if readRegFlag then
    if offset = -1 then ReadRegAction.failMissingOffset
    else if length > 128 then ReadRegAction.failLengthTooBig
    else ReadRegAction.read offset length
  else ReadRegAction.skipped

/-- The `retcode` produced by the `FLAGS_read_reg` block (starting from
`EX_OK`). -/
def readRegRetcode : ReadRegAction → Nat
  | ReadRegAction.failMissingOffset => EX_SOFTWARE
  | ReadRegAction.failLengthTooBig => EX_SOFTWARE
  | _ => EX_OK

/-- Indices at which `doReadReg` reads its local buffer `buf`: the values of
`i` in `for (int i = 0; i < length; i++)`. -/
def doReadRegIndices (length : Int) : List Nat :=
  List.range length.toNat

/-! ## Neighbor-resolution cache

Modelled from the spec: the implementation of `NeighborCache` behind the
`ArpCache` interface header is not part of the source sample; the Entry
Store, the Resolution State Machine transitions, the classified-packet
handling, timer firings, `flush` and `onLinkDown` below follow sections
3-7 of the specification.
-/

/-- Modelled from the spec: a scope identifier is a VLAN plus an ingress
interface. -/
structure Scope where
  vlan : Nat
  intf : Nat
deriving DecidableEq, Repr

/-- Modelled from the spec: an Entry Store key is (scope, network address). -/
structure NKey where
  scope : Scope
  addr : Nat
deriving DecidableEq, Repr

/-- Modelled from the spec: the states of a live `NeighborEntry`
(`UNRESOLVED` is the absence of an entry; `EXPIRED` is terminal removal). -/
inductive EntryState where
  | pending
  | reachable
  | stale
  | probeRevalidate
deriving DecidableEq, Repr

/-- Modelled from the spec: the fields of a `NeighborEntry` (section 3). -/
structure NeighborEntry where
  lladdr : Option Nat
  port : Option Nat
  state : EntryState
  retries : Nat
  lastConfirm : Nat
  nextAction : Nat
  gen : Nat
deriving DecidableEq, Repr

/-- Modelled from the spec: the Entry Store, keyed by `NKey`. -/
abbrev Store := List (NKey × NeighborEntry)

/-- Lookup of the entry for a key in the Entry Store. -/
def lookupEntry (k : NKey) : Store → Option NeighborEntry
  | [] => none
  | (k2, e) :: rest => if k2 = k then some e else lookupEntry k rest

/-- In-place update of the entry stored under a key (first occurrence). -/
def updateEntry (k : NKey) (f : NeighborEntry → NeighborEntry) : Store → Store
  | [] => []
  | (k2, e) :: rest =>
      if k2 = k then (k2, f e) :: rest else (k2, e) :: updateEntry k f rest

/-- Removal of every entry stored under a key. -/
def eraseEntry (k : NKey) (s : Store) : Store :=
  s.filter (fun p => decide (p.1 ≠ k))

/-- Modelled from the spec: cache state is the Entry Store plus the
observability counters of section 7 (malformed packets, conflicting
replies). -/
structure CacheState where
  store : Store
  malformedCount : Nat
  conflictCount : Nat
deriving DecidableEq, Repr

/-- The empty cache a freshly started agent rebuilds from (section 6: no
on-disk persistence). -/
def initCache : CacheState :=
  { store := [], malformedCount := 0, conflictCount := 0 }

/-- Modelled from the spec: the policy constants of section 4.1 (retry budget,
reachable lifetime) are configuration. -/
structure Config where
  maxRetries : Nat
  reachableLifetime : Nat
deriving DecidableEq, Repr

/-- Modelled from the spec: a fresh `PENDING` entry created by
`UNRESOLVED -> PENDING` (probe scheduled immediately, retry counter 0,
no link-layer address or port yet). -/
def freshPending (now : Nat) : NeighborEntry :=
  { lladdr := none, port := none, state := EntryState.pending, retries := 0,
    lastConfirm := 0, nextAction := now, gen := 0 }

/-- Modelled from the spec: `STALE -> PROBING_REVALIDATE` — a unicast
re-probe of the stored link-layer address is scheduled; the mapping itself is
kept. -/
def revalidateEntry (now : Nat) (e : NeighborEntry) : NeighborEntry :=
  { e with state := EntryState.probeRevalidate, retries := 0,
           nextAction := now, gen := e.gen + 1 }

/-- Modelled from the spec: `PENDING -> PENDING` / re-validation retry — one
more probe is consumed and the timer is re-armed with a fresh generation. -/
def retryEntry (e : NeighborEntry) : NeighborEntry :=
  { e with retries := e.retries + 1, gen := e.gen + 1 }

/-- Modelled from the spec: `REACHABLE -> STALE` — the reachable-lifetime
timer fired with no refresh. -/
def ageEntry (e : NeighborEntry) : NeighborEntry :=
  { e with state := EntryState.stale, gen := e.gen + 1 }

/-- Modelled from the spec: the periodic sweep moving a `STALE` entry to
`PROBING_REVALIDATE`. -/
def sweepEntry (e : NeighborEntry) : NeighborEntry :=
  { e with state := EntryState.probeRevalidate, retries := 0, gen := e.gen + 1 }

/-- Modelled from the spec: `resolve(scope, address)` (section 6): a missing
entry is created in `PENDING`; using a `STALE` entry triggers a unicast
re-probe (`STALE -> PROBING_REVALIDATE`); otherwise the store is unchanged. -/
def resolve (now : Nat) (k : NKey) (s : CacheState) : CacheState :=
  match lookupEntry k s.store with
  | none => { s with store := (k, freshPending now) :: s.store }
  | some e =>
    match e.state with
    | EntryState.stale =>
        { s with store := updateEntry k (revalidateEntry now) s.store }
    | _ => s

/-- Modelled from the spec: the result of `classifyInbound` (section 4.2),
with the adapter's `authoritativeForUnsolicited` verdict attached to a
confirming reply. -/
inductive Classified where
  | mineConfirming (k : NKey) (lladdr : Nat) (port : Nat) (authoritative : Bool)
  | mineRequestForLocal (k : NKey) (lladdr : Nat) (port : Nat)
  | notMine
  | malformed
deriving DecidableEq, Repr

/-- Modelled from the spec: a confirming reply sets link-layer address, port
and confirmation timestamp atomically and resets the retry counter
(`PENDING -> REACHABLE`, `PROBING_REVALIDATE -> REACHABLE`). -/
def confirmEntry (now lladdr port : Nat) (e : NeighborEntry) : NeighborEntry :=
  { e with lladdr := some lladdr, port := some port, state := EntryState.reachable,
           retries := 0, lastConfirm := now, gen := e.gen + 1 }

/-- Modelled from the spec: entry created directly in `REACHABLE` by an
authoritative unsolicited announcement (`UNRESOLVED -> REACHABLE`). -/
def unsolicitedEntry (now lladdr port : Nat) : NeighborEntry :=
  { lladdr := some lladdr, port := some port, state := EntryState.reachable,
    retries := 0, lastConfirm := now, nextAction := now, gen := 0 }

/-- Modelled from the spec: how the Resolution State Machine consumes one
classified inbound packet (sections 4.1, 4.2, 7): malformed packets are
dropped and counted; `NotMine` and local-request classifications never touch
the store; a confirming reply promotes `PENDING` / `PROBING_REVALIDATE`
entries, is ignored while `REACHABLE` (counted as a conflict when the
link-layer address differs) or `STALE`, and creates a `REACHABLE` entry for
an unknown key only when classified authoritative. -/
def processInbound (now : Nat) (c : Classified) (s : CacheState) : CacheState :=
  match c with
  | Classified.malformed => { s with malformedCount := s.malformedCount + 1 }
  | Classified.notMine => s
  | Classified.mineRequestForLocal _ _ _ => s
  | Classified.mineConfirming k lladdr port auth =>
    match lookupEntry k s.store with
    | none =>
        if auth then
          { s with store := (k, unsolicitedEntry now lladdr port) :: s.store }
        else s
    | some e =>
      match e.state with
      | EntryState.pending =>
          { s with store := updateEntry k (confirmEntry now lladdr port) s.store }
      | EntryState.probeRevalidate =>
          { s with store := updateEntry k (confirmEntry now lladdr port) s.store }
      | EntryState.reachable =>
          if e.lladdr = some lladdr then s
          else { s with conflictCount := s.conflictCount + 1 }
      | EntryState.stale => s

/-- Modelled from the spec: a timer firing delivered with the key and the
generation recorded at arming (sections 5 and 9): a missing entry or a
generation mismatch is a silent no-op; otherwise the firing drives
`PENDING`/`PROBING_REVALIDATE` retry-or-expire, `REACHABLE -> STALE` aging
and the `STALE -> PROBING_REVALIDATE` sweep, re-arming with a bumped
generation. -/
def handleTimer (cfg : Config) (k : NKey) (gen : Nat) (s : CacheState) : CacheState :=
  match lookupEntry k s.store with
  | none => s
  | some e =>
    if gen = e.gen then
      match e.state with
      | EntryState.pending =>
          if e.retries < cfg.maxRetries then
            { s with store := updateEntry k retryEntry s.store }
          else { s with store := eraseEntry k s.store }
      | EntryState.reachable =>
          { s with store := updateEntry k ageEntry s.store }
      | EntryState.stale =>
          { s with store := updateEntry k sweepEntry s.store }
      | EntryState.probeRevalidate =>
          if e.retries < cfg.maxRetries then
            { s with store := updateEntry k retryEntry s.store }
          else { s with store := eraseEntry k s.store }
    else s

/-- Modelled from the spec: `flush(scope, address)` — administrative
invalidation of one key; removing an absent key is not an error. -/
def flush (k : NKey) (s : CacheState) : CacheState :=
  { s with store := eraseEntry k s.store }

/-- Modelled from the spec: `onLinkDown(scope)` — bulk invalidation of every
entry on the scope. -/
def onLinkDown (sc : Scope) (s : CacheState) : CacheState :=
  { s with store := s.store.filter (fun p => decide (p.1.scope ≠ sc)) }

/-- Modelled from the spec: the cache states reachable from the empty cache
by the operations of the Resolution State Machine. -/
inductive Reach (cfg : Config) : CacheState → Prop where
  | init : Reach cfg initCache
  | resolveStep (now : Nat) (k : NKey) (s : CacheState) :
      Reach cfg s → Reach cfg (resolve now k s)
  | inboundStep (now : Nat) (c : Classified) (s : CacheState) :
      Reach cfg s → Reach cfg (processInbound now c s)
  | timerStep (k : NKey) (g : Nat) (s : CacheState) :
      Reach cfg s → Reach cfg (handleTimer cfg k g s)
  | flushStep (k : NKey) (s : CacheState) :
      Reach cfg s → Reach cfg (flush k s)
  | linkDownStep (sc : Scope) (s : CacheState) :
      Reach cfg s → Reach cfg (onLinkDown sc s)

/-- Invariant payload for a stored entry: the link-layer address and the
egress port are present together or absent together, and a `PENDING` entry
respects the retry budget. -/
def GoodEntry (cfg : Config) (p : NKey × NeighborEntry) : Prop :=
  p.2.lladdr.isSome = p.2.port.isSome ∧
  (p.2.state = EntryState.pending → p.2.retries ≤ cfg.maxRetries)

/-- Combined store invariant: keys are unique and every entry is good. -/
def StoreInv (cfg : Config) (s : CacheState) : Prop :=
  (s.store.map Prod.fst).Nodup ∧ ∀ p ∈ s.store, GoodEntry cfg p

/-! ## Association-list lemmas for the Entry Store -/

theorem keys_updateEntry (k : NKey) (f : NeighborEntry → NeighborEntry) (l : Store) :
    (updateEntry k f l).map Prod.fst = l.map Prod.fst := by
  induction l with
  | nil => rfl
  | cons q rest ih =>
    obtain ⟨k2, e⟩ := q
    by_cases h : k2 = k <;> simp [updateEntry, h, ih]

theorem lookupEntry_mem {k : NKey} {l : Store} {e : NeighborEntry}
    (hl : lookupEntry k l = some e) : (k, e) ∈ l := by
  induction l with
  | nil => simp [lookupEntry] at hl
  | cons q rest ih =>
    obtain ⟨k2, e2⟩ := q
    by_cases h : k2 = k
    · subst h
      simp only [lookupEntry, if_true, eq_self_iff_true, Option.some.injEq] at hl
      subst hl
      exact List.mem_cons_self _ _
    · simp only [lookupEntry, if_neg h] at hl
      exact List.mem_cons_of_mem _ (ih hl)

theorem mem_updateEntry_of_lookup {k : NKey} {f : NeighborEntry → NeighborEntry}
    {l : Store} {e : NeighborEntry} (hl : lookupEntry k l = some e) :
    ∀ p ∈ updateEntry k f l, p ∈ l ∨ p = (k, f e) := by
  induction l with
  | nil => simp [updateEntry]
  | cons q rest ih =>
    obtain ⟨k2, e2⟩ := q
    by_cases h : k2 = k
    · subst h
      simp only [lookupEntry, if_true, eq_self_iff_true, Option.some.injEq] at hl
      subst hl
      intro p hp
      simp only [updateEntry, if_true, eq_self_iff_true] at hp
      rcases List.mem_cons.mp hp with h1 | h2
      · exact Or.inr h1
      · exact Or.inl (List.mem_cons_of_mem _ h2)
    · simp only [lookupEntry, if_neg h] at hl
      intro p hp
      simp only [updateEntry, if_neg h] at hp
      rcases List.mem_cons.mp hp with h1 | h2
      · exact Or.inl (h1 ▸ List.mem_cons_self _ _)
      · rcases ih hl p h2 with h3 | h4
        · exact Or.inl (List.mem_cons_of_mem _ h3)
        · exact Or.inr h4

theorem lookupEntry_updateEntry (k : NKey) (f : NeighborEntry → NeighborEntry) (l : Store) :
    lookupEntry k (updateEntry k f l) = (lookupEntry k l).map f := by
  induction l with
  | nil => rfl
  | cons q rest ih =>
    obtain ⟨k2, e⟩ := q
    by_cases h : k2 = k <;> simp [updateEntry, lookupEntry, h, ih]

theorem lookupEntry_eq_none {k : NKey} {l : Store} :
    lookupEntry k l = none ↔ ∀ p ∈ l, p.1 ≠ k := by
  induction l with
  | nil => simp [lookupEntry]
  | cons q rest ih =>
    obtain ⟨k2, e⟩ := q
    by_cases h : k2 = k
    · subst h
      simp [lookupEntry]
    · simp [lookupEntry, h, ih]

theorem lookupEntry_eraseEntry (k : NKey) (l : Store) :
    lookupEntry k (eraseEntry k l) = none := by
  induction l with
  | nil => rfl
  | cons q rest ih =>
    obtain ⟨k2, e⟩ := q
    by_cases h : k2 = k
    · subst h
      simpa [eraseEntry, List.filter_cons] using ih
    · simpa [eraseEntry, List.filter_cons, h, lookupEntry] using ih

theorem keys_nodup_filter {l : Store} (h : (l.map Prod.fst).Nodup)
    (p : NKey × NeighborEntry → Bool) : ((l.filter p).map Prod.fst).Nodup :=
  h.sublist ((List.filter_sublist l).map Prod.fst)

theorem keys_not_mem_of_lookup_none {k : NKey} {l : Store}
    (h : lookupEntry k l = none) : k ∉ l.map Prod.fst := by
  intro hk
  rcases List.mem_map.mp hk with ⟨p, hp, hpk⟩
  exact lookupEntry_eq_none.mp h p hp hpk

theorem filter_key_length_le_one {l : Store} (h : (l.map Prod.fst).Nodup) (k : NKey) :
    (l.filter (fun p => decide (p.1 = k))).length ≤ 1 := by
  induction l with
  | nil => simp
  | cons q rest ih =>
    rw [List.map_cons] at h
    obtain ⟨hq, hrest⟩ := List.nodup_cons.mp h
    by_cases hk : q.1 = k
    · have hnone : rest.filter (fun p => decide (p.1 = k)) = [] := by
        refine List.filter_eq_nil_iff.mpr ?_
        intro p hp
        simp only [decide_eq_true_eq]
        intro hpk
        apply hq
        have hmem : p.1 ∈ rest.map Prod.fst := List.mem_map_of_mem Prod.fst hp
        rwa [hpk, ← hk] at hmem
      simp [List.filter_cons, hk, hnone]
    · simpa [List.filter_cons, hk] using ih hrest

/-! ## Preservation of the store invariant -/

theorem nodupGood_update {cfg : Config} {k : NKey} {f : NeighborEntry → NeighborEntry}
    {e : NeighborEntry} {l : Store}
    (hnd : (l.map Prod.fst).Nodup) (hgood : ∀ p ∈ l, GoodEntry cfg p)
    (hl : lookupEntry k l = some e) (hfe : GoodEntry cfg (k, f e)) :
    ((updateEntry k f l).map Prod.fst).Nodup ∧ ∀ p ∈ updateEntry k f l, GoodEntry cfg p := by
  refine ⟨by rw [keys_updateEntry]; exact hnd, ?_⟩
  intro p hp
  rcases mem_updateEntry_of_lookup hl p hp with h1 | h2
  · exact hgood p h1
  · exact h2 ▸ hfe

theorem nodupGood_filter {cfg : Config} {l : Store}
    (hnd : (l.map Prod.fst).Nodup) (hgood : ∀ p ∈ l, GoodEntry cfg p)
    (pred : NKey × NeighborEntry → Bool) :
    ((l.filter pred).map Prod.fst).Nodup ∧ ∀ p ∈ l.filter pred, GoodEntry cfg p :=
  ⟨keys_nodup_filter hnd pred, fun p hp => hgood p (List.mem_of_mem_filter hp)⟩

theorem nodupGood_cons {cfg : Config} {k : NKey} {e : NeighborEntry} {l : Store}
    (hnd : (l.map Prod.fst).Nodup) (hgood : ∀ p ∈ l, GoodEntry cfg p)
    (hl : lookupEntry k l = none) (he : GoodEntry cfg (k, e)) :
    (((k, e) :: l).map Prod.fst).Nodup ∧ ∀ p ∈ (k, e) :: l, GoodEntry cfg p := by
  constructor
  · rw [List.map_cons]
    exact List.nodup_cons.mpr ⟨keys_not_mem_of_lookup_none hl, hnd⟩
  · intro p hp
    rcases List.mem_cons.mp hp with rfl | hp2
    · exact he
    · exact hgood p hp2

theorem goodEntry_freshPending (cfg : Config) (k : NKey) (now : Nat) :
    GoodEntry cfg (k, freshPending now) := by
  exact ⟨rfl, fun _ => Nat.zero_le _⟩

theorem goodEntry_unsolicited (cfg : Config) (k : NKey) (now lladdr port : Nat) :
    GoodEntry cfg (k, unsolicitedEntry now lladdr port) := by
  refine ⟨rfl, fun hc => ?_⟩
  simp [unsolicitedEntry] at hc

theorem goodEntry_confirm (cfg : Config) (k : NKey) (now lladdr port : Nat)
    (e : NeighborEntry) : GoodEntry cfg (k, confirmEntry now lladdr port e) := by
  refine ⟨rfl, fun hc => ?_⟩
  simp [confirmEntry] at hc

theorem goodEntry_revalidate {cfg : Config} {k : NKey} {e : NeighborEntry}
    (h : GoodEntry cfg (k, e)) (now : Nat) : GoodEntry cfg (k, revalidateEntry now e) := by
  refine ⟨?_, fun hc => ?_⟩
  · simpa [revalidateEntry] using h.1
  · simp [revalidateEntry] at hc

theorem goodEntry_retry {cfg : Config} {k : NKey} {e : NeighborEntry}
    (h : GoodEntry cfg (k, e)) (hr : e.retries < cfg.maxRetries) :
    GoodEntry cfg (k, retryEntry e) := by
  refine ⟨?_, fun _ => ?_⟩
  · simpa [retryEntry] using h.1
  · simpa [retryEntry] using hr

theorem goodEntry_age {cfg : Config} {k : NKey} {e : NeighborEntry}
    (h : GoodEntry cfg (k, e)) : GoodEntry cfg (k, ageEntry e) := by
  refine ⟨?_, fun hc => ?_⟩
  · simpa [ageEntry] using h.1
  · simp [ageEntry] at hc

theorem goodEntry_sweep {cfg : Config} {k : NKey} {e : NeighborEntry}
    (h : GoodEntry cfg (k, e)) : GoodEntry cfg (k, sweepEntry e) := by
  refine ⟨?_, fun hc => ?_⟩
  · simpa [sweepEntry] using h.1
  · simp [sweepEntry] at hc

theorem storeInv_resolve (cfg : Config) (now : Nat) (k : NKey) (s : CacheState)
    (h : StoreInv cfg s) : StoreInv cfg (resolve now k s) := by
  obtain ⟨hnd, hgood⟩ := h
  unfold resolve
  split
  · next hl => exact nodupGood_cons hnd hgood hl (goodEntry_freshPending cfg k now)
  · next e hl =>
    split
    · exact nodupGood_update hnd hgood hl
        (goodEntry_revalidate (hgood (k, e) (lookupEntry_mem hl)) now)
    · exact ⟨hnd, hgood⟩

theorem storeInv_inbound (cfg : Config) (now : Nat) (c : Classified) (s : CacheState)
    (h : StoreInv cfg s) : StoreInv cfg (processInbound now c s) := by
  obtain ⟨hnd, hgood⟩ := h
  unfold processInbound
  split
  · exact ⟨hnd, hgood⟩
  · exact ⟨hnd, hgood⟩
  · exact ⟨hnd, hgood⟩
  · next k lladdr port auth =>
    split
    · next hl =>
      split
      · exact nodupGood_cons hnd hgood hl (goodEntry_unsolicited cfg k now lladdr port)
      · exact ⟨hnd, hgood⟩
    · next e hl =>
      split
      · exact nodupGood_update hnd hgood hl (goodEntry_confirm cfg k now lladdr port e)
      · exact nodupGood_update hnd hgood hl (goodEntry_confirm cfg k now lladdr port e)
      · split
        · exact ⟨hnd, hgood⟩
        · exact ⟨hnd, hgood⟩
      · exact ⟨hnd, hgood⟩

theorem storeInv_timer (cfg : Config) (k : NKey) (g : Nat) (s : CacheState)
    (h : StoreInv cfg s) : StoreInv cfg (handleTimer cfg k g s) := by
  obtain ⟨hnd, hgood⟩ := h
  unfold handleTimer
  split
  · exact ⟨hnd, hgood⟩
  · next e hl =>
    split
    · split
      · split
        · next hr =>
          exact nodupGood_update hnd hgood hl
            (goodEntry_retry (hgood (k, e) (lookupEntry_mem hl)) hr)
        · exact nodupGood_filter hnd hgood _
      · exact nodupGood_update hnd hgood hl
          (goodEntry_age (hgood (k, e) (lookupEntry_mem hl)))
      · exact nodupGood_update hnd hgood hl
          (goodEntry_sweep (hgood (k, e) (lookupEntry_mem hl)))
      · split
        · next hr =>
          exact nodupGood_update hnd hgood hl
            (goodEntry_retry (hgood (k, e) (lookupEntry_mem hl)) hr)
        · exact nodupGood_filter hnd hgood _
    · exact ⟨hnd, hgood⟩

theorem storeInv_flush (cfg : Config) (k : NKey) (s : CacheState)
    (h : StoreInv cfg s) : StoreInv cfg (flush k s) :=
  nodupGood_filter h.1 h.2 _

theorem storeInv_linkDown (cfg : Config) (sc : Scope) (s : CacheState)
    (h : StoreInv cfg s) : StoreInv cfg (onLinkDown sc s) :=
  nodupGood_filter h.1 h.2 _

theorem storeInv_reach {cfg : Config} {s : CacheState} (h : Reach cfg s) :
    StoreInv cfg s := by
  induction h with
  | init => exact ⟨List.nodup_nil, by simp [initCache]⟩
  | resolveStep now k s _ ih => exact storeInv_resolve cfg now k s ih
  | inboundStep now c s _ ih => exact storeInv_inbound cfg now c s ih
  | timerStep k g s _ ih => exact storeInv_timer cfg k g s ih
  | flushStep k s _ ih => exact storeInv_flush cfg k s ih
  | linkDownStep sc s _ ih => exact storeInv_linkDown cfg sc s ih

/-! ## Claims about the neighbor cache -/

theorem processInbound_reachable_store {now : Nat} {k : NKey} {lladdr port : Nat}
    {auth : Bool} {s : CacheState} {e : NeighborEntry}
    (hl : lookupEntry k s.store = some e) (hr : e.state = EntryState.reachable) :
    (processInbound now (Classified.mineConfirming k lladdr port auth) s).store = s.store := by
  simp only [processInbound, hl, hr]
  split <;> rfl

/-- C1: in every reachable cache state the Entry Store holds at most one
`NeighborEntry` per key; reachability quantifies over every operation of the
Resolution State Machine (resolve, reply processing, timer firing, flush,
onLinkDown), so each of them preserves the uniqueness invariant. -/
theorem neighborCache_key_uniqueness (cfg : Config) (s : CacheState)
    (hs : Reach cfg s) (k : NKey) :
    (s.store.filter (fun p => decide (p.1 = k))).length ≤ 1 :=
  filter_key_length_le_one (storeInv_reach hs).1 k

theorem neighborCache_key_uniqueness_witness :
    (((resolve 0 ⟨⟨1, 1⟩, 5⟩ initCache).store.filter
        (fun p => decide (p.1 = (⟨⟨1, 1⟩, 5⟩ : NKey)))).length ≤ 1) :=
  neighborCache_key_uniqueness ⟨3, 30⟩ (resolve 0 ⟨⟨1, 1⟩, 5⟩ initCache)
    (Reach.resolveStep 0 ⟨⟨1, 1⟩, 5⟩ initCache Reach.init) ⟨⟨1, 1⟩, 5⟩

/-- C2: in every reachable cache state, every stored entry has its link-layer
address and its egress port either both present or both absent; since
reachability closes over all operations, no operation can produce an entry
with exactly one of the pair. -/
theorem neighborEntry_atomic_pair (cfg : Config) (s : CacheState) (hs : Reach cfg s)
    (p : NKey × NeighborEntry) (hp : p ∈ s.store) :
    p.2.lladdr.isSome = p.2.port.isSome :=
  ((storeInv_reach hs).2 p hp).1

theorem neighborEntry_atomic_pair_witness :
    ((⟨⟨1, 1⟩, 5⟩, unsolicitedEntry 0 1 2) : NKey × NeighborEntry).2.lladdr.isSome =
      ((⟨⟨1, 1⟩, 5⟩, unsolicitedEntry 0 1 2) : NKey × NeighborEntry).2.port.isSome :=
  neighborEntry_atomic_pair ⟨3, 30⟩
    (processInbound 0 (Classified.mineConfirming ⟨⟨1, 1⟩, 5⟩ 1 2 true) initCache)
    (Reach.inboundStep 0 (Classified.mineConfirming ⟨⟨1, 1⟩, 5⟩ 1 2 true) initCache Reach.init)
    (⟨⟨1, 1⟩, 5⟩, unsolicitedEntry 0 1 2) (by decide)

/-- C3: an entry in state `REACHABLE` is never overwritten by later confirming
replies for its key carrying a different link-layer address: processing any
number of such replies leaves the entry (in particular its link-layer address
and egress port) unchanged; the conflict is only counted. -/
theorem reachable_conflicting_reply_keeps_mapping
    (k : NKey) (e : NeighborEntry) (s : CacheState)
    (hl : lookupEntry k s.store = some e) (hr : e.state = EntryState.reachable)
    (replies : List (Nat × Nat × Nat × Bool))
    (hdiff : ∀ r ∈ replies, e.lladdr ≠ some r.2.1) :
    lookupEntry k
      (replies.foldl
        (fun st r =>
          processInbound r.1 (Classified.mineConfirming k r.2.1 r.2.2.1 r.2.2.2) st)
        s).store = some e := by
  induction replies generalizing s with
  | nil => simpa using hl
  | cons r rest ih =>
    simp only [List.foldl_cons]
    refine ih _ ?_ (fun r2 hr2 => hdiff r2 (List.mem_cons_of_mem _ hr2))
    rw [processInbound_reachable_store hl hr]
    exact hl

theorem reachable_conflicting_reply_keeps_mapping_witness :
    lookupEntry ⟨⟨1, 1⟩, 5⟩
      (([((3 : Nat), (9 : Nat), (9 : Nat), true), ((4 : Nat), (8 : Nat), (7 : Nat), false)]).foldl
        (fun st r =>
          processInbound r.1
            (Classified.mineConfirming ⟨⟨1, 1⟩, 5⟩ r.2.1 r.2.2.1 r.2.2.2) st)
        (processInbound 0 (Classified.mineConfirming ⟨⟨1, 1⟩, 5⟩ 1 2 true) initCache)).store
      = some (unsolicitedEntry 0 1 2) :=
  reachable_conflicting_reply_keeps_mapping ⟨⟨1, 1⟩, 5⟩ (unsolicitedEntry 0 1 2)
    (processInbound 0 (Classified.mineConfirming ⟨⟨1, 1⟩, 5⟩ 1 2 true) initCache)
    (by decide) rfl
    [((3 : Nat), (9 : Nat), (9 : Nat), true), ((4 : Nat), (8 : Nat), (7 : Nat), false)]
    (by decide)

theorem handleTimer_pending_retry {cfg : Config} {k : NKey} {s : CacheState}
    {e : NeighborEntry} (hl : lookupEntry k s.store = some e)
    (hp : e.state = EntryState.pending) (hr : e.retries < cfg.maxRetries) :
    (handleTimer cfg k e.gen s).store = updateEntry k retryEntry s.store := by
  simp only [handleTimer, hl, hp]
  simp [hr]

theorem handleTimer_pending_expire {cfg : Config} {k : NKey} {s : CacheState}
    {e : NeighborEntry} (hl : lookupEntry k s.store = some e)
    (hp : e.state = EntryState.pending) (hr : ¬ e.retries < cfg.maxRetries) :
    (handleTimer cfg k e.gen s).store = eraseEntry k s.store := by
  simp only [handleTimer, hl, hp]
  simp [hr]

/-- C4: in every reachable state a `PENDING` entry has consumed at most the
configured maximum number of retries; a probe timeout with retries remaining
increments the counter by one and stays `PENDING`, and a timeout with the
budget exhausted removes the entry from the Entry Store (the `EXPIRED`
transition). -/
theorem pending_retry_budget (cfg : Config) (s : CacheState) (hs : Reach cfg s)
    (k : NKey) (e : NeighborEntry) (hl : lookupEntry k s.store = some e)
    (hp : e.state = EntryState.pending) :
    e.retries ≤ cfg.maxRetries ∧
    (e.retries < cfg.maxRetries →
      lookupEntry k (handleTimer cfg k e.gen s).store = some (retryEntry e) ∧
      (retryEntry e).state = EntryState.pending ∧
      (retryEntry e).retries = e.retries + 1) ∧
    (¬ e.retries < cfg.maxRetries →
      lookupEntry k (handleTimer cfg k e.gen s).store = none) := by
  refine ⟨((storeInv_reach hs).2 (k, e) (lookupEntry_mem hl)).2 hp, ?_, ?_⟩
  · intro hr
    refine ⟨?_, ?_, rfl⟩
    · rw [handleTimer_pending_retry hl hp hr, lookupEntry_updateEntry, hl]
      rfl
    · simpa [retryEntry] using hp
  · intro hr
    rw [handleTimer_pending_expire hl hp hr, lookupEntry_eraseEntry]

theorem pending_retry_budget_witness :
    (freshPending 0).retries ≤ (3 : Nat) ∧
    ((freshPending 0).retries < (3 : Nat) →
      lookupEntry ⟨⟨1, 1⟩, 5⟩
        (handleTimer ⟨3, 30⟩ ⟨⟨1, 1⟩, 5⟩ (freshPending 0).gen
          (resolve 0 ⟨⟨1, 1⟩, 5⟩ initCache)).store = some (retryEntry (freshPending 0)) ∧
      (retryEntry (freshPending 0)).state = EntryState.pending ∧
      (retryEntry (freshPending 0)).retries = (freshPending 0).retries + 1) ∧
    (¬ (freshPending 0).retries < (3 : Nat) →
      lookupEntry ⟨⟨1, 1⟩, 5⟩
        (handleTimer ⟨3, 30⟩ ⟨⟨1, 1⟩, 5⟩ (freshPending 0).gen
          (resolve 0 ⟨⟨1, 1⟩, 5⟩ initCache)).store = none) :=
  pending_retry_budget ⟨3, 30⟩ (resolve 0 ⟨⟨1, 1⟩, 5⟩ initCache)
    (Reach.resolveStep 0 ⟨⟨1, 1⟩, 5⟩ initCache Reach.init)
    ⟨⟨1, 1⟩, 5⟩ (freshPending 0) (by decide) rfl

/-- C5: a packet classified `Malformed` is dropped and counted — the Entry
Store is untouched and the malformed counter increments — and the handler is
a total function, so no exception is raised into the state machine; a packet
classified `NotMine` leaves the whole cache state unchanged. -/
theorem malformed_counted_notMine_noop (now : Nat) (s : CacheState) :
    (processInbound now Classified.malformed s).store = s.store ∧
    (processInbound now Classified.malformed s).malformedCount = s.malformedCount + 1 ∧
    processInbound now Classified.notMine s = s :=
  ⟨rfl, rfl, rfl⟩

/-- C6: flushing a key with no entry in the Entry Store is a no-op rather than
an error, and flushing twice produces the same store as flushing once. -/
theorem flush_idempotent_on_absent (k : NKey) (s : CacheState) :
    (lookupEntry k s.store = none → flush k s = s) ∧
    flush k (flush k s) = flush k s := by
  constructor
  · intro h
    have he : eraseEntry k s.store = s.store := by
      apply List.filter_eq_self.mpr
      intro p hp
      exact decide_eq_true (lookupEntry_eq_none.mp h p hp)
    cases s with
    | mk st m c =>
      show CacheState.mk (eraseEntry k st) m c = CacheState.mk st m c
      rw [show eraseEntry k st = st from he]
  · have he : eraseEntry k (eraseEntry k s.store) = eraseEntry k s.store := by
      apply List.filter_eq_self.mpr
      intro p hp
      have hp2 : p ∈ s.store.filter (fun q => decide (q.1 ≠ k)) := hp
      simpa using List.of_mem_filter hp2
    cases s with
    | mk st m c =>
      show CacheState.mk (eraseEntry k (eraseEntry k st)) m c = CacheState.mk (eraseEntry k st) m c
      rw [show eraseEntry k (eraseEntry k st) = eraseEntry k st from he]

theorem flush_idempotent_on_absent_witness :
    flush ⟨⟨1, 1⟩, 5⟩ initCache = initCache ∧
    flush ⟨⟨1, 1⟩, 5⟩ (flush ⟨⟨1, 1⟩, 5⟩ initCache) = flush ⟨⟨1, 1⟩, 5⟩ initCache :=
  ⟨(flush_idempotent_on_absent ⟨⟨1, 1⟩, 5⟩ initCache).1 rfl,
   (flush_idempotent_on_absent ⟨⟨1, 1⟩, 5⟩ initCache).2⟩

/-- C7: a timer firing whose key has no entry, or whose recorded generation
differs from the entry's current generation, is a silent no-op: the cache
state (in particular the Entry Store) is returned unchanged and no error
branch exists. -/
theorem stale_timer_firing_noop (cfg : Config) (k : NKey) (g : Nat) (s : CacheState) :
    (lookupEntry k s.store = none → handleTimer cfg k g s = s) ∧
    (∀ e, lookupEntry k s.store = some e → g ≠ e.gen → handleTimer cfg k g s = s) := by
  constructor
  · intro h
    simp only [handleTimer, h]
  · intro e hl hg
    simp only [handleTimer, hl]
    rw [if_neg hg]

theorem stale_timer_firing_noop_witness :
    handleTimer ⟨3, 30⟩ ⟨⟨2, 2⟩, 6⟩ 7 (resolve 0 ⟨⟨1, 1⟩, 5⟩ initCache) =
      resolve 0 ⟨⟨1, 1⟩, 5⟩ initCache ∧
    handleTimer ⟨3, 30⟩ ⟨⟨1, 1⟩, 5⟩ 99 (resolve 0 ⟨⟨1, 1⟩, 5⟩ initCache) =
      resolve 0 ⟨⟨1, 1⟩, 5⟩ initCache :=
  ⟨(stale_timer_firing_noop ⟨3, 30⟩ ⟨⟨2, 2⟩, 6⟩ 7 (resolve 0 ⟨⟨1, 1⟩, 5⟩ initCache)).1
      (by decide),
   (stale_timer_firing_noop ⟨3, 30⟩ ⟨⟨1, 1⟩, 5⟩ 99 (resolve 0 ⟨⟨1, 1⟩, 5⟩ initCache)).2
      (freshPending 0) (by decide) (by decide)⟩

/-! ## Claims about sfpString -/

theorem sfpStringLen_le (buf : List Nat) (offset : Nat) :
    ∀ len, sfpStringLen buf offset len ≤ len := by
  intro len
  induction len with
  | zero => simp [sfpStringLen]
  | succ n ih =>
    simp only [sfpStringLen]
    split
    · exact le_trans ih (Nat.le_succ n)
    · exact le_refl _

theorem numTrailingSpaces_append (l : List Nat) (a : Nat) :
    numTrailingSpaces (l ++ [a]) =
      if a = 0x20 then numTrailingSpaces l + 1 else 0 := by
  unfold numTrailingSpaces
  rw [List.reverse_append]
  by_cases h : a = 0x20
  · subst h
    simp [List.takeWhile_cons]
  · have hb : (a == 0x20) = false := by simpa using h
    simp [List.takeWhile_cons, hb, h]

theorem sfpStringLen_eq (buf : List Nat) (offset : Nat) :
    ∀ len, offset + len ≤ buf.length →
      sfpStringLen buf offset len = len - numTrailingSpaces ((buf.drop offset).take len) := by
  intro len
  induction len with
  | zero => intro _; simp [sfpStringLen, numTrailingSpaces]
  | succ n ih =>
    intro h
    have hlt : offset + n < buf.length := by omega
    have htake : (buf.drop offset).take (n + 1) =
        (buf.drop offset).take n ++ [buf.getD (offset + n) 0] := by
      rw [List.take_succ]
      rw [List.getElem?_drop, List.getElem?_eq_getElem hlt]
      rw [List.getD_eq_getElem buf 0 hlt]
      rfl
    rw [htake, numTrailingSpaces_append]
    by_cases hsp : buf.getD (offset + n) 0 = 0x20
    · rw [if_pos hsp, Nat.succ_sub_succ]
      have hunf : sfpStringLen buf offset (n + 1) = sfpStringLen buf offset n := by
        simp only [sfpStringLen]
        rw [if_pos hsp]
      rw [hunf]
      exact ih (by omega)
    · rw [if_neg hsp]
      have hunf : sfpStringLen buf offset (n + 1) = n + 1 := by
        simp only [sfpStringLen]
        rw [if_neg hsp]
      rw [hunf, Nat.sub_zero]

theorem sfpStringLen_last (buf : List Nat) (offset : Nat) :
    ∀ len m, sfpStringLen buf offset len = m + 1 → ¬ buf.getD (offset + m) 0 = 0x20 := by
  intro len
  induction len with
  | zero => intro m h; simp [sfpStringLen] at h
  | succ n ih =>
    intro m h
    have hunf : sfpStringLen buf offset (n + 1) =
        if buf.getD (offset + n) 0 = 0x20 then sfpStringLen buf offset n else n + 1 := by
      simp only [sfpStringLen]
    by_cases hsp : buf.getD (offset + n) 0 = 0x20
    · rw [hunf, if_pos hsp] at h
      exact ih m h
    · rw [hunf, if_neg hsp] at h
      have hm : m = n := by omega
      subst hm
      exact hsp

/-- C8: for a buffer holding at least `offset + len` bytes, `sfpString`
returns the byte range at `offset` of size `len` truncated by exactly the
number of trailing 0x20 (space) bytes of that range; consequently the result
is a prefix of the range, has length at most `len`, and is either empty or
does not end in a space. -/
theorem sfpString_strips_trailing_spaces (buf : List Nat) (offset len : Nat)
    (h : offset + len ≤ buf.length) :
    sfpString buf offset len =
      ((buf.drop offset).take len).take
        (len - numTrailingSpaces ((buf.drop offset).take len)) ∧
    (∃ t, sfpString buf offset len ++ t = (buf.drop offset).take len) ∧
    (sfpString buf offset len).length ≤ len ∧
    (sfpString buf offset len = [] ∨ (sfpString buf offset len).getLast? ≠ some 0x20) := by
  have hlen := sfpStringLen_eq buf offset len h
  have hle : sfpStringLen buf offset len ≤ len := sfpStringLen_le buf offset len
  have hmain : sfpString buf offset len =
      ((buf.drop offset).take len).take
        (len - numTrailingSpaces ((buf.drop offset).take len)) := by
    have htt : ((buf.drop offset).take len).take
        (len - numTrailingSpaces ((buf.drop offset).take len)) =
        (buf.drop offset).take (len - numTrailingSpaces ((buf.drop offset).take len)) := by
      rw [List.take_take, Nat.min_eq_left (Nat.sub_le _ _)]
    rw [htt]
    unfold sfpString
    rw [hlen]
  have hpref : sfpString buf offset len =
      ((buf.drop offset).take len).take (sfpStringLen buf offset len) := by
    unfold sfpString
    rw [List.take_take, Nat.min_eq_left hle]
  refine ⟨hmain, ?_, ?_, ?_⟩
  · refine ⟨((buf.drop offset).take len).drop (sfpStringLen buf offset len), ?_⟩
    rw [hpref]
    exact List.take_append_drop _ _
  · calc (sfpString buf offset len).length ≤ sfpStringLen buf offset len := by
          unfold sfpString
          rw [List.length_take]
          exact Nat.min_le_left _ _
      _ ≤ len := hle
  · cases hsl : sfpStringLen buf offset len with
    | zero =>
      left
      unfold sfpString
      rw [hsl]
      rfl
    | succ m =>
      right
      have hm1 : m + 1 ≤ len := hsl ▸ hle
      have hmlt : offset + m < buf.length := by omega
      have hlast : (sfpString buf offset len).getLast? = some (buf.getD (offset + m) 0) := by
        unfold sfpString
        rw [hsl]
        have hLlen : ((buf.drop offset).take (m + 1)).length = m + 1 := by
          rw [List.length_take, List.length_drop]
          omega
        rw [List.getLast?_eq_getElem? _, hLlen]
        simp only [Nat.add_sub_cancel]
        rw [List.getElem?_take, if_pos (Nat.lt_succ_self m), List.getElem?_drop,
          List.getElem?_eq_getElem hmlt]
        rw [List.getD_eq_getElem buf 0 hmlt]
      rw [hlast]
      intro hcontra
      have hsome : buf.getD (offset + m) 0 = 0x20 := by
        simpa using hcontra
      exact sfpStringLen_last buf offset len m hsl hsome

theorem sfpString_strips_trailing_spaces_witness :
    sfpString [65, 66, 0x20, 0x20] 0 4 =
      (([65, 66, 0x20, 0x20].drop 0).take 4).take
        (4 - numTrailingSpaces (([65, 66, 0x20, 0x20].drop 0).take 4)) ∧
    (∃ t, sfpString [65, 66, 0x20, 0x20] 0 4 ++ t = ([65, 66, 0x20, 0x20].drop 0).take 4) ∧
    (sfpString [65, 66, 0x20, 0x20] 0 4).length ≤ 4 ∧
    (sfpString [65, 66, 0x20, 0x20] 0 4 = [] ∨
      (sfpString [65, 66, 0x20, 0x20] 0 4).getLast? ≠ some 0x20) :=
  sfpString_strips_trailing_spaces [65, 66, 0x20, 0x20] 0 4 (by decide)

/-! ## Claims about SimPlatform -/

theorem lookupPort_append (id : Nat) (l1 l2 : PortMapping) :
    lookupPort id (l1 ++ l2) =
      match lookupPort id l1 with
      | some p => some p
      | none => lookupPort id l2 := by
  induction l1 with
  | nil => rfl
  | cons q rest ih =>
    obtain ⟨i, p⟩ := q
    by_cases h : i = id <;> simp [lookupPort, h, ih]

theorem lookupPort_initPorts (numPorts id : Nat) :
    lookupPort id (initPorts numPorts) =
      if id < numPorts then some ⟨id⟩ else none := by
  induction numPorts with
  | zero => simp [initPorts, lookupPort]
  | succ n ih =>
    rw [initPorts, List.range_succ n, List.map_append]
    rw [lookupPort_append]
    have hfold : (List.range n).map (fun i => ((i : Nat), (⟨i⟩ : SimPlatformPort))) =
        initPorts n := rfl
    rw [hfold, ih]
    by_cases h : id < n
    · simp [h, Nat.lt_succ_of_lt h]
    · by_cases h2 : id = n
      · subst h2
        simp [h, lookupPort, Nat.lt_succ_self]
      · have h3 : ¬ id < n + 1 := by omega
        simp [h, h3, lookupPort, Ne.symm h2]

/-- C9: a `SimPlatform` constructed with `numPorts` ports answers
`getPlatformPort id` with the port created by `initPorts` for every
`id < numPorts` (and the keys populated by `initPorts` are pairwise
distinct, so each is created once), throws `FbossError` for every id
outside the range, and the lookup fails exactly on the ids `initPorts`
did not populate. -/
theorem simPlatform_getPlatformPort_range (numPorts id : Nat) :
    (id < numPorts → getPlatformPort (mkSimPlatform numPorts) id = Except.ok ⟨id⟩) ∧
    (numPorts ≤ id →
      getPlatformPort (mkSimPlatform numPorts) id =
        Except.error "Cannot find SimPlatform PlatformPort") ∧
    ((mkSimPlatform numPorts).portMapping.map Prod.fst).Nodup ∧
    (lookupPort id (mkSimPlatform numPorts).portMapping = none ↔ numPorts ≤ id) := by
  have hmap : (mkSimPlatform numPorts).portMapping = initPorts numPorts := rfl
  refine ⟨?_, ?_, ?_, ?_⟩
  · intro h
    unfold getPlatformPort
    rw [hmap, lookupPort_initPorts, if_pos h]
  · intro h
    unfold getPlatformPort
    rw [hmap, lookupPort_initPorts, if_neg (by omega)]
  · rw [hmap]
    have hkeys : (initPorts numPorts).map Prod.fst = List.range numPorts := by
      simp only [initPorts, List.map_map]
      exact List.map_id (List.range numPorts)
    rw [hkeys]
    exact List.nodup_range numPorts
  · rw [hmap, lookupPort_initPorts]
    by_cases h : id < numPorts
    · simp only [if_pos h]
      constructor
      · intro hc; exact absurd hc (by simp)
      · intro hc; omega
    · simp only [if_neg h]
      constructor
      · intro _; omega
      · intro _; trivial

theorem simPlatform_getPlatformPort_range_witness :
    getPlatformPort (mkSimPlatform 4) 2 = Except.ok ⟨2⟩ ∧
    getPlatformPort (mkSimPlatform 4) 9 =
      Except.error "Cannot find SimPlatform PlatformPort" :=
  ⟨(simPlatform_getPlatformPort_range 4 2).1 (by decide),
   (simPlatform_getPlatformPort_range 4 9).2.1 (by decide)⟩

/-! ## Claims about the read-register dispatch -/

/-- C10: with `--read_reg`, a length above 128 is rejected (never reaching
`doReadReg`, with `retcode` set to `EX_SOFTWARE` whenever an offset was
supplied); whenever the dispatch does call `doReadReg` the length is at most
128, and every buffer index of the read loop lies strictly below the length
and below the 128-byte buffer size. -/
theorem readReg_length_guard (offset length : Int) :
    (length > 128 → ∀ o l, readRegDispatch true offset length ≠ ReadRegAction.read o l) ∧
    (length > 128 → offset ≠ -1 →
      readRegDispatch true offset length = ReadRegAction.failLengthTooBig ∧
      readRegRetcode (readRegDispatch true offset length) = EX_SOFTWARE) ∧
    (∀ o l, readRegDispatch true offset length = ReadRegAction.read o l →
      l ≤ 128 ∧ ∀ i ∈ doReadRegIndices l, (0 : Int) ≤ (i : Int) ∧ (i : Int) < l ∧ i < 128) := by
  refine ⟨?_, ?_, ?_⟩
  · intro hlen o l
    by_cases hoff : offset = -1
    · simp [readRegDispatch, hoff]
    · simp [readRegDispatch, hoff, hlen]
  · intro hlen hoff
    constructor
    · simp [readRegDispatch, hoff, hlen]
    · simp [readRegDispatch, hoff, hlen, readRegRetcode]
  · intro o l h
    by_cases hoff : offset = -1
    · simp [readRegDispatch, hoff] at h
    · by_cases hlen : length > 128
      · simp [readRegDispatch, hoff, hlen] at h
      · simp [readRegDispatch, hoff, hlen] at h
        obtain ⟨ho, hl⟩ := h
        constructor
        · omega
        · intro i hi
          unfold doReadRegIndices at hi
          rw [List.mem_range] at hi
          refine ⟨Int.ofNat_nonneg i, ?_, ?_⟩
          · omega
          · omega

theorem readReg_length_guard_witness :
    (readRegDispatch true 0 200 = ReadRegAction.failLengthTooBig ∧
      readRegRetcode (readRegDispatch true 0 200) = EX_SOFTWARE) ∧
    ((4 : Int) ≤ 128 ∧
      ∀ i ∈ doReadRegIndices 4, (0 : Int) ≤ (i : Int) ∧ (i : Int) < 4 ∧ i < 128) :=
  ⟨(readReg_length_guard 0 200).2.1 (by decide) (by decide),
   (readReg_length_guard 0 4).2.2 0 4 (by decide)⟩

end Fboss
